import Mathlib

/-!
Verification development for the FUSE-ODS2 reader (`__main__.py`).

The Python source is shallowly embedded: the disk image is a byte buffer
(a length together with a byte-valued index function), Python exceptions
become the `PyErr` error type of `Except`,
machine integers are `ℕ`/`ℤ`, and every decoder is a computable Lean
function mirroring the corresponding Python routine statement by
statement.  `while` loops that advance an offset are embedded with an
explicit fuel argument whose initial value strictly dominates the number
of iterations (each iteration advances the offset by at least one unit,
and the loop stops as soon as the offset reaches the end), so the
starved-fuel branch is unreachable at every call site.
-/

set_option maxRecDepth 100000

/-- Python exceptions that the embedded code can raise. -/
inductive PyErr where
  | attributeError
  | indexError
  | typeError
  | structError
  | unicodeDecodeError
  deriving DecidableEq, Repr

instance {ε α : Type} [DecidableEq ε] [DecidableEq α] : DecidableEq (Except ε α) := fun a b =>
  match a, b with
  | .ok x, .ok y =>
    if h : x = y then .isTrue (by rw [h])
    else .isFalse (fun hh => by cases hh; exact h rfl)
  | .ok _, .error _ => .isFalse (fun hh => by cases hh)
  | .error _, .ok _ => .isFalse (fun hh => by cases hh)
  | .error e, .error f =>
    if h : e = f then .isTrue (by rw [h])
    else .isFalse (fun hh => by cases hh; exact h rfl)

/-- An immutable byte buffer (the Python `bytes` object): a length and a
byte-valued index function.  Indices at or beyond `len` are never
observed — every reader checks bounds first, matching `struct` and
subscript semantics. -/
structure Bytes where
  len : ℕ
  byte : ℕ → ℕ

/-- Build a byte buffer from an explicit byte list. -/
def ofList (l : List ℕ) : Bytes := ⟨l.length, fun i => l.getD i 0⟩

/-- Byte access `disk[i]` for in-bounds reads; callers check bounds first. -/
def byteAt (d : Bytes) (i : ℕ) : ℕ := d.byte i

/-- Little-endian 16-bit read, as `struct.unpack('<H')`. -/
def le16 (d : Bytes) (i : ℕ) : ℕ := byteAt d i + 256 * byteAt d (i + 1)

/-- Little-endian 32-bit read, as `struct.unpack('<I')`. -/
def le32 (d : Bytes) (i : ℕ) : ℕ := le16 d i + 65536 * le16 d (i + 2)

/-- Little-endian 64-bit read, as `struct.unpack('<Q')`. -/
def le64 (d : Bytes) (i : ℕ) : ℕ := le32 d i + 4294967296 * le32 d (i + 4)

/-- The value of a 16-bit word reinterpreted as a signed integer
(`struct.unpack('h')`). -/
def signed16 (w : ℕ) : ℤ := if w < 32768 then (w : ℤ) else (w : ℤ) - 65536

/-- Python slice `d[a:b]` on a byte buffer for nonnegative indices:
the bytes at indices `a ≤ i < min b len`; clamps, never fails. -/
def pySlice (d : Bytes) (a b : ℕ) : List ℕ :=
  (List.range' a (min b d.len - a)).map d.byte

/-- Python slice assignment `d[a:b] = r` for nonnegative indices. -/
def pySliceAssign (d : List ℕ) (a b : ℕ) (r : List ℕ) : List ℕ :=
  let start := min a d.length
  let stop := max (min b d.length) start
  d.take start ++ r ++ d.drop stop

/-- Normalize a Python list index (negative indices count from the end);
`none` when the index is out of range. -/
def pyNormIdx (len : ℕ) (i : ℤ) : Option ℕ :=
  if 0 ≤ i then (if i < (len : ℤ) then some i.toNat else none)
  else (if -i ≤ (len : ℤ) then some (len - (-i).toNat) else none)

/-- Python list subscript `l[i]`, raising `IndexError` when out of range. -/
def pyGet {α : Type} (l : List α) (i : ℤ) : Except PyErr α :=
  match pyNormIdx l.length i with
  | some j =>
    match l.get? j with
    | some x => .ok x
    | none => .error .indexError
  | none => .error .indexError

/-- Python list item assignment `l[i] = x`, raising `IndexError` when out
of range. -/
def pySet {α : Type} (l : List α) (i : ℤ) (x : α) : Except PyErr (List α) :=
  match pyNormIdx l.length i with
  | some j => .ok (l.set j x)
  | none => .error .indexError

/-- `bytes.decode("ascii")`: succeeds exactly when every byte is < 128. -/
def decodeAscii (bs : List ℕ) : Except PyErr (List Char) :=
  if bs.all (· < 128) then .ok (bs.map Char.ofNat)
  else .error .unicodeDecodeError

/-- The whitespace characters stripped by Python `str.strip()`. -/
def isPySpace (c : Char) : Bool :=
  c = ' ' || c = '\t' || c = '\n' || c = '\r' || c = Char.ofNat 11 || c = Char.ofNat 12

/-- Python `str.strip()` on a character list. -/
def pyStrip (cs : List Char) : List Char :=
  ((cs.dropWhile isPySpace).reverse.dropWhile isPySpace).reverse

/-- Python `s.rsplit(';', 1)[0]` on a character list: everything before the
last semicolon, or the whole string when there is none. -/
def dropLastSemi (cs : List Char) : List Char :=
  match cs.reverse.dropWhile (fun c => !(c = ';')) with
  | [] => cs
  | _ :: before => before.reverse

/-- Strip one trailing dot, as the source does after name decoding. -/
def stripTrailingDot (cs : List Char) : List Char :=
  if cs.getLast? = some '.' then cs.dropLast else cs

/-- One extent of a file's retrieval map: the dictionary
`{'lbn': ..., 'block_count': ...}` appended by `File.read_map`. -/
structure Extent where
  lbn : ℕ
  block_count : ℕ
  deriving DecidableEq, Repr

/-- Sum of the block counts of a list of extents; `File.read_map`
accumulates this value into `total_block_count`. -/
def sumCounts (m : List Extent) : ℕ := (m.map Extent.block_count).sum

/-- The retrieval-pointer parsing loop of `File.read_map` (source lines
158-220).  The format selector is the top two bits of the second byte.
Format 3 mirrors the source exactly: `struct.unpack_from('BBH', ...)`
uses native layout, hence reads two single bytes and one 16-bit word at
byte offset 2 (little-endian on the machines CPython targets here), even
though the loop then advances the offset by 8.  Fuel bounds the number of
iterations; every iteration advances `offset` by at least 2, so any fuel
at least `endOffset` suffices. -/
def readMapLoop (disk : Bytes) : ℕ → ℕ → ℕ → Except PyErr (List Extent)
  | 0, _, _ => .ok []
  | fuel + 1, offset, endOffset =>
    if offset < endOffset then
      -- `disk[offset + 1]` raises IndexError when out of range
      if offset + 2 > disk.len then .error .indexError else
      let fmt := (byteAt disk (offset + 1) &&& 192) >>> 6
      if fmt = 0 then
        -- unpack '<H' (the placeholder word is discarded); a diagnostic is
        -- printed and the zero extent is appended
        (readMapLoop disk fuel (offset + 2) endOffset).map
          (fun rest => ⟨0, 0⟩ :: rest)
      else if fmt = 1 then
        -- unpack '<BBH': B_COUNT1, V_HIGHLBN, W_LOWLBN
        if offset + 4 > disk.len then .error .structError else
        let bCount1 := byteAt disk offset
        let vHighLbn := byteAt disk (offset + 1) &&& 63
        let wLowLbn := le16 disk (offset + 2)
        (readMapLoop disk fuel (offset + 4) endOffset).map
          (fun rest => ⟨(vHighLbn <<< 16) ||| wLowLbn, bCount1⟩ :: rest)
      else if fmt = 2 then
        -- unpack '<HH': V_COUNT2, W_LBN2; the offset then advances by 6
        if offset + 4 > disk.len then .error .structError else
        let vCount2 := le16 disk offset &&& 16383
        let wLbn2 := le16 disk (offset + 2)
        (readMapLoop disk fuel (offset + 6) endOffset).map
          (fun rest => ⟨wLbn2, vCount2⟩ :: rest)
      else
        -- unpack 'BBH' (native layout, 4 bytes): V_COUNT2 and W_LOWCOUNT are
        -- single bytes and L_LBN3 a 16-bit word; the offset advances by 8
        if offset + 4 > disk.len then .error .structError else
        let vCount2 := byteAt disk offset &&& 16383
        let wLowCount := byteAt disk (offset + 1)
        let lLbn3 := le16 disk (offset + 2)
        (readMapLoop disk fuel (offset + 8) endOffset).map
          (fun rest => ⟨lLbn3, (vCount2 <<< 16) ||| wLowCount⟩ :: rest)
    else .ok []

/-- The walk of `File.get_lbn_for_vbn` (source lines 238-247): `base` is
the accumulated block count and `v` the already-decremented VBN; the test
`vbn in range(base, base + count)` is `base ≤ v < base + count`. -/
def getLbnGo : ℤ → List Extent → ℤ → Option ℤ
  | _, [], _ => none
  | base, e :: rest, v =>
    if base ≤ v ∧ v < base + (e.block_count : ℤ) then
      some ((e.lbn : ℤ) + (v - base))
    else getLbnGo (base + (e.block_count : ℤ)) rest v

/-- The `(file_number, sequence_number, RVN)` triple decoded by
`FileID.__init__` (source lines 37-51) from six bytes:
`u16 W_NUM, u16 W_SEQ, u8 B_RVN, u8 B_NMX`. -/
structure FileID where
  file_number : ℕ
  sequence_number : ℕ
  relative_volume_number : ℕ
  deriving DecidableEq, Repr

/-- Decode a `FileID` from six bytes at `off` (callers check bounds). -/
def FileID.init (d : Bytes) (off : ℕ) : FileID :=
  { file_number := (byteAt d (off + 5) <<< 16) ||| le16 d off
    sequence_number := le16 d (off + 2)
    relative_volume_number := byteAt d (off + 4) }

/-- One directory entry (`DirectoryEntry.__init__`, source lines 56-66):
the version word is unpacked but not stored. -/
structure DirectoryEntry where
  fid : FileID
  deriving DecidableEq, Repr

/-- A decoded directory record (`DirectoryRecord.__init__`): `size` is
`W_SIZE + 2`, the name has a trailing dot stripped. -/
structure DirectoryRecord where
  size : ℕ
  name : String
  entries : List DirectoryEntry
  deriving DecidableEq, Repr

/-- The entry loop of `DirectoryRecord.__init__` (source lines 95-99):
each iteration unpacks `'<H6s'` (8 bytes, bounds-checked) and decodes the
6-byte file id at byte offset 2 of the entry. -/
def entriesLoop (disk : Bytes) : ℕ → ℕ → Except PyErr (List DirectoryEntry)
  | 0, _ => .ok []
  | n + 1, off =>
    if off + 8 > disk.len then .error .structError else
    (entriesLoop disk n (off + 8)).map
      (fun rest => ⟨FileID.init disk (off + 2)⟩ :: rest)

/-- `DirectoryRecord.__init__` (source lines 71-99).  The entry count is
`int((self.size - B_NAMECOUNT) / 8)` — Python truncation toward zero, and
a negative count yields an empty `range`. -/
def DirectoryRecord.init (disk : Bytes) (offset : ℕ) :
    Except PyErr DirectoryRecord :=
  if offset + 6 > disk.len then .error .structError else
  let wSize := le16 disk offset
  let bNameCount := byteAt disk (offset + 5)
  let size := wSize + 2
  let off1 := offset + 6
  let nameBytes := pySlice disk off1 (off1 + bNameCount)
  let off2 := off1 + bNameCount
  match decodeAscii nameBytes with
  | .error e => .error e
  | .ok chars =>
    let name := String.mk (stripTrailingDot chars)
    let off3 := if off2 % 2 = 1 then off2 + 1 else off2
    let entriesCount := (((size : ℤ) - (bNameCount : ℤ)).tdiv 8).toNat
    (entriesLoop disk entriesCount off3).map (fun es => ⟨size, name, es⟩)

/-- The inner loop of `File.read_directory_records` (source lines
228-236): at most 62 records per block, stopping at the first record
whose `W_SIZE`, read as a signed 16-bit integer, is negative. -/
def blockRecordsLoop (disk : Bytes) : ℕ → ℕ → Except PyErr (List DirectoryRecord)
  | 0, _ => .ok []
  | fuel + 1, offset =>
    if offset + 2 > disk.len then .error .structError else
    if signed16 (le16 disk offset) < 0 then .ok []
    else
      match DirectoryRecord.init disk offset with
      | .error e => .error e
      | .ok r =>
        (blockRecordsLoop disk fuel (offset + r.size)).map (fun rest => r :: rest)

/-- The outer loop of `File.read_directory_records` (source lines
224-236), desugared: `for vbn in range(1, total)` runs `total - 1`
iterations starting at `vbn = 1`.  A VBN without a mapping makes
`lbn * BLOCK_SIZE` a `TypeError` on `None`. -/
def rdrAux (disk : Bytes) (map : List Extent) : ℕ → ℕ → Except PyErr (List DirectoryRecord)
  | 0, _ => .ok []
  | remaining + 1, vbn =>
    match getLbnGo 0 map ((vbn : ℤ) - 1) with
    | none => .error .typeError
    | some lbn =>
      match blockRecordsLoop disk 62 ((lbn * 512).toNat) with
      | .error e => .error e
      | .ok recs =>
        (rdrAux disk map remaining (vbn + 1)).map (fun more => recs ++ more)

/-- `File.read_directory_records` over a decoded map and total block
count. -/
def read_directory_records (disk : Bytes) (map : List Extent) (total : ℕ) :
    Except PyErr (List DirectoryRecord) :=
  rdrAux disk map (total - 1) 1

/-- `VMStoUNIX` (source lines 32-35), computed exactly in ℚ. -/
def vmsToUnix (t : ℕ) : ℚ := ((t : ℚ) - 35067168003000000) / 10000000

/-- `File.read_ident` (source lines 138-156): creation and revision
timestamps plus the processed file name (concatenated name and extension,
ASCII-decoded, stripped, version suffix after the last semicolon dropped,
one trailing dot removed). -/
def read_ident (disk : Bytes) (offset : ℕ) : Except PyErr (ℚ × ℚ × String) :=
  if offset + 120 > disk.len then .error .structError else
  let qCreate := le64 disk (offset + 22)
  let qRevDate := le64 disk (offset + 30)
  match decodeAscii (pySlice disk offset (offset + 20) ++
      pySlice disk (offset + 54) (offset + 120)) with
  | .error e => .error e
  | .ok chars =>
    let nm := stripTrailingDot (dropLastSemi (pyStrip chars))
    .ok (vmsToUnix qCreate, vmsToUnix qRevDate, String.mk nm)

/-- A decoded file header (`File.__init__`, source lines 101-136).
`name` is `none` when the identification area is absent, mirroring the
attribute never being assigned in Python. -/
structure File where
  fid : FileID
  ext_fid : FileID
  is_directory : Bool
  create_time : ℚ
  revision_time : ℚ
  name : Option String
  map : List Extent
  total_block_count : ℕ
  size : ℕ
  records : List DirectoryRecord
  deriving DecidableEq, Repr

/-- `File.__init__`: unpack the 59-byte fixed header prefix, read the
identification area unless `B_IDOFFSET` is 0xFF, read the map area unless
`B_MPOFFSET` is 0xFF (in which case `map = []`, `total_block_count = 0`
and `size` keeps its initial value of one block, 512), and decode
directory records when bit 13 of `L_FILECHAR` is set.  `read_map`
appends extents while summing `total_block_count` and finally sets
`size = total_block_count * 512`; here the same values are computed from
the returned extent list. -/
def File.init (disk : Bytes) (offset : ℕ) : Except PyErr File :=
  if offset + 59 > disk.len then .error .structError else
  let bIdOffset := byteAt disk offset
  let bMpOffset := byteAt disk (offset + 1)
  let bMapInUse := byteAt disk (offset + 58)
  let fid := FileID.init disk (offset + 8)
  let ext_fid := FileID.init disk (offset + 14)
  let lFileChar := le32 disk (offset + 52)
  let is_directory := lFileChar &&& 8192 == 8192
  let identRes : Except PyErr (ℚ × ℚ × Option String) :=
    if bIdOffset = 255 then .ok (0, 0, none)
    else (read_ident disk (offset + bIdOffset * 2)).map
      (fun r => (r.1, r.2.1, some r.2.2))
  match identRes with
  | .error e => .error e
  | .ok (create_time, revision_time, name) =>
    let mapRes : Except PyErr (Option (List Extent)) :=
      if bMpOffset = 255 then .ok none
      else (readMapLoop disk (offset + bMpOffset * 2 + bMapInUse * 2 + 1)
              (offset + bMpOffset * 2)
              (offset + bMpOffset * 2 + bMapInUse * 2)).map some
    match mapRes with
    | .error e => .error e
    | .ok mapOpt =>
      let map := mapOpt.getD []
      let total := match mapOpt with | none => 0 | some m => sumCounts m
      let size := match mapOpt with | none => 512 | some m => sumCounts m * 512
      match (if is_directory then read_directory_records disk map total else .ok []) with
      | .error e => .error e
      | .ok records =>
        .ok ⟨fid, ext_fid, is_directory, create_time, revision_time, name,
             map, total, size, records⟩

/-- `File.get_lbn_for_vbn` (source lines 238-247). -/
def File.get_lbn_for_vbn (f : File) (vbn : ℤ) : Option ℤ :=
  getLbnGo 0 f.map (vbn - 1)

/-- `File.get_record_by_name` (source lines 249-252): first record with a
matching name, or `None`. -/
def File.get_record_by_name (f : File) (name : String) : Option DirectoryRecord :=
  f.records.find? (fun r => r.name == name)

/-- The stat-like record returned by `ODS2.getattr` (source lines
370-389). -/
structure Stat where
  st_size : ℕ
  st_ctime : ℚ
  st_atime : ℚ
  st_mtime : ℚ
  st_mode : ℕ
  st_nlink : ℕ
  st_uid : ℕ
  st_gid : ℕ
  deriving DecidableEq, Repr

/-- `S_IFREG` (octal 100000). -/
def S_IFREG : ℕ := 32768

/-- `S_IFDIR` (octal 40000). -/
def S_IFDIR : ℕ := 16384

/-- The volume state built by `ODS2.__init__` / `ODS2.read_home_block`
(source lines 254-350).  After a successful bootstrap `self.mfd` is
always set (line 350 would raise otherwise), so `mfd` is not optional
here. -/
structure Volume where
  disk : Bytes
  mountpoint : String
  structure_name : String
  volume_name : String
  owner_name : String
  format : String
  reserved_file_count : ℕ
  bitmap_blocks : ℕ
  index_file : File
  mfd : File
  files : List (Option File)

/-- Python `path.startswith('/')` followed by `path[1:]`. -/
def dropLeadingSlash (cs : List Char) : List Char :=
  match cs with
  | '/' :: rest => rest
  | _ => cs

/-- Python `path.endswith('/')` followed by `path[:-1]`. -/
def dropTrailingSlash (cs : List Char) : List Char :=
  if cs.getLast? = some '/' then cs.dropLast else cs

/-- Python `str.split('/')` on a nonempty string. -/
def splitSlash : List Char → List (List Char)
  | [] => [[]]
  | c :: rest =>
    let r := splitSlash rest
    if c = '/' then [] :: r
    else
      match r with
      | h :: t => (c :: h) :: t
      | [] => [[c]]

/-- The path normalization of `ODS2.get_file_by_path` (source lines
353-361): drop one leading and one trailing slash, then split on `/`
unless the remainder is empty. -/
def pathParts (path : String) : List String :=
  let p2 := dropTrailingSlash (dropLeadingSlash path.data)
  if p2.length > 0 then (splitSlash p2).map String.mk else []

/-- The component-following loop of `ODS2.get_file_by_path` (source lines
363-368).  A `None` current file makes `file.get_record_by_name` raise
`AttributeError`; a missing record makes `rec.entries` raise
`AttributeError`; an empty entry list makes `entries[0]` raise
`IndexError`; the table lookup is a Python subscript. -/
def resolveGo (v : Volume) : List String → Option File → Except PyErr (Option File)
  | [], file => .ok file
  | p :: rest, file =>
    match file with
    | none => .error .attributeError
    | some f =>
      match f.get_record_by_name p with
      | none => .error .attributeError
      | some rec =>
        match rec.entries with
        | [] => .error .indexError
        | e :: _ =>
          match pyGet v.files ((e.fid.file_number : ℤ) - 1) with
          | .error err => .error err
          | .ok nf => resolveGo v rest nf

/-- `ODS2.get_file_by_path` (source lines 352-368). -/
def ODS2.get_file_by_path (v : Volume) (path : String) : Except PyErr (Option File) :=
  resolveGo v (pathParts path) (some v.mfd)

/-- `ODS2.getattr` (source lines 370-389); `uid`/`gid` stand for the
`os.lstat` results on the image file. -/
def ODS2.getattr (v : Volume) (uid gid : ℕ) (path : String) : Except PyErr Stat :=
  match ODS2.get_file_by_path v path with
  | .error e => .error e
  | .ok none => .error .attributeError
  | .ok (some f) =>
    .ok { st_size := f.size
          st_ctime := f.create_time
          st_atime := f.revision_time
          st_mtime := f.revision_time
          st_mode := if f.is_directory then S_IFDIR ||| 365 else S_IFREG ||| 292
          st_nlink := 0
          st_uid := uid
          st_gid := gid }

/-- The record loop of `ODS2.readdir` (source lines 395-400): skip
records whose first entry's file number does not exceed the reserved
count; `entries[0]` raises on an empty entry list. -/
def direntsLoop (reserved : ℕ) : List DirectoryRecord → Except PyErr (List String)
  | [] => .ok []
  | r :: rest =>
    match r.entries with
    | [] => .error .indexError
    | e :: _ =>
      (direntsLoop reserved rest).map (fun tail =>
        if e.fid.file_number ≤ reserved then tail else r.name :: tail)

/-- `ODS2.readdir` (source lines 391-403): yields `.`, `..`, then the
kept record names in record order. -/
def ODS2.readdir (v : Volume) (path : String) : Except PyErr (List String) :=
  match ODS2.get_file_by_path v path with
  | .error e => .error e
  | .ok none => .error .attributeError
  | .ok (some f) =>
    (direntsLoop v.reserved_file_count f.records).map
      (fun names => "." :: ".." :: names)

/-- `ODS2.readlink` (source lines 405-409). -/
def ODS2.readlink (v : Volume) (path : String) : String :=
  if path = "/000000.DIR" then v.mountpoint else ""

/-- The block-copy loop of `ODS2.read` (source lines 427-434).  Each
iteration copies `disk[lbn*512 : lbn*512+512]` into the output at
`data_offset` and advances both offsets by 512.  Fuel dominates the
iteration count at the call site (`endOffset` iterations would each
advance `offset` by 512). -/
def readLoop (disk : Bytes) (f : File) :
    ℕ → List ℕ → ℕ → ℕ → ℕ → Except PyErr (List ℕ)
  | fuel, data, dataOffset, offset, endOffset =>
    if offset < endOffset then
      match fuel with
      | 0 => .ok data
      | fuel + 1 =>
        match f.get_lbn_for_vbn ((offset / 512 + 1 : ℕ) : ℤ) with
        | none => .error .typeError
        | some lbn =>
          let diskOffset := (lbn * 512).toNat
          readLoop disk f fuel
            (pySliceAssign data dataOffset (dataOffset + 512)
              (pySlice disk diskOffset (diskOffset + 512)))
            (dataOffset + 512) (offset + 512) endOffset
    else .ok data

/-- `ODS2.read` (source lines 411-436): empty result on an unaligned
offset or an unresolved file, otherwise the clamped block-copy loop. -/
def ODS2.read (v : Volume) (path : String) (length offset : ℕ) :
    Except PyErr (List ℕ) :=
  if offset % 512 ≠ 0 then .ok [] else
  match ODS2.get_file_by_path v path with
  | .error e => .error e
  | .ok none => .ok []
  | .ok (some file) =>
    let e0 := offset + length
    let endOffset := if e0 > file.size then file.size else e0
    readLoop v.disk file endOffset [] 0 offset endOffset

/-- The header-scan loop of `ODS2.read_home_block` (source lines
329-346), desugared over the VBN list.  A header block whose first byte
is zero stops the scan; otherwise the header is decoded twice (the
source constructs `File(self.disk, offset)` once for the name check and
once for the table slot) and stored at Python index
`file_number - 1`. -/
def scanLoop (disk : Bytes) (indexFile : File) (bitmapBlocks : ℕ) :
    List ℕ → List (Option File) → Option File →
    Except PyErr (List (Option File) × Option File)
  | [], files, mfd => .ok (files, mfd)
  | vbn :: rest, files, mfd =>
    match indexFile.get_lbn_for_vbn ((bitmapBlocks + vbn : ℕ) : ℤ) with
    | none => .error .typeError
    | some lbn =>
      let offset := (lbn * 512).toNat
      if offset + 1 > disk.len then .error .indexError else
      if byteAt disk offset = 0 then .ok (files, mfd)
      else
        match File.init disk offset with
        | .error e => .error e
        | .ok f =>
          match f.name with
          | none => .error .attributeError
          | some nm =>
            let mfd2 := if nm = "000000.DIR" then some f else mfd
            match File.init disk offset with
            | .error e => .error e
            | .ok f2 =>
              match pySet files ((f.fid.file_number : ℤ) - 1) (some f2) with
              | .error e => .error e
              | .ok files2 => scanLoop disk indexFile bitmapBlocks rest files2 mfd2

/-- `ODS2.read_home_block` (source lines 267-350): decode the home block
at byte 512, decode the INDEXF.SYS header at LBN
`L_IBMAPLBN + W_IBMAPSIZE`, drop its first three extents (subtracting
their block counts), scan the header blocks for `vbn` in
`range(1, total_block_count)` looking them up at `bitmap_blocks + vbn`,
and finally force the MFD's size to the sentinel 666 (`self.mfd.size`
raises `AttributeError` when no MFD was found). -/
def ODS2.read_home_block (disk : Bytes) (mountpoint : String) :
    Except PyErr Volume :=
  if 1024 > disk.len then .error .structError else
  let lIbMapLbn := le32 disk (512 + 24)
  let wIbMapSize := le16 disk (512 + 32)
  let wResFiles := le16 disk (512 + 34)
  match decodeAscii (pySlice disk (512 + 460) (512 + 472)) with
  | .error e => .error e
  | .ok strucName =>
  match decodeAscii (pySlice disk (512 + 472) (512 + 484)) with
  | .error e => .error e
  | .ok volName =>
  match decodeAscii (pySlice disk (512 + 484) (512 + 496)) with
  | .error e => .error e
  | .ok ownerName =>
  match decodeAscii (pySlice disk (512 + 496) (512 + 508)) with
  | .error e => .error e
  | .ok fmtName =>
  match File.init disk ((lIbMapLbn + wIbMapSize) * 512) with
  | .error e => .error e
  | .ok idx0 =>
    let index_file : File := { idx0 with
      total_block_count := idx0.total_block_count - sumCounts (idx0.map.take 3)
      map := idx0.map.drop 3 }
    let files0 : List (Option File) := List.replicate index_file.total_block_count none
    match scanLoop disk index_file wIbMapSize
        (List.range' 1 (index_file.total_block_count - 1)) files0 none with
    | .error e => .error e
    | .ok (files, mfdOpt) =>
      match mfdOpt with
      | none => .error .attributeError
      | some m =>
        .ok { disk := disk
              mountpoint := mountpoint
              structure_name := String.mk strucName
              volume_name := String.mk volName
              owner_name := String.mk ownerName
              format := String.mk fmtName
              reserved_file_count := wResFiles
              bitmap_blocks := wIbMapSize
              index_file := index_file
              mfd := { m with size := 666 }
              files := files }

/-- Modelled from the spec (4.E): directory parsing decomposed over an
explicit list of VBNs, each block parsed by the 62-record loop.  Used to
state which VBNs `read_directory_records` actually processes. -/
def recordsOfVbns (disk : Bytes) (map : List Extent) :
    List ℕ → Except PyErr (List DirectoryRecord)
  | [] => .ok []
  | vbn :: rest =>
    match getLbnGo 0 map ((vbn : ℤ) - 1) with
    | none => .error .typeError
    | some lbn =>
      match blockRecordsLoop disk 62 ((lbn * 512).toNat) with
      | .error e => .error e
      | .ok recs => (recordsOfVbns disk map rest).map (fun more => recs ++ more)

/-- Failure reasons of the spec-side path resolver. -/
inductive ResolveErr where
  | noRecord
  | noEntries
  | badIndex
  deriving DecidableEq, Repr

/-- Modelled from the spec (4.G): one resolution step — find the record
whose name equals the component, read the first entry's file number, and
follow `files[file_number - 1]`; each way a step can fail is reported as
a distinct "not found" reason. -/
def specResolveStep (v : Volume) (f : File) (p : String) : Except ResolveErr File :=
  match f.get_record_by_name p with
  | none => .error .noRecord
  | some rec =>
    match rec.entries.head? with
    | none => .error .noEntries
    | some e =>
      if 1 ≤ e.fid.file_number then
        match v.files.get? (e.fid.file_number - 1) with
        | some (some f2) => .ok f2
        | _ => .error .badIndex
      else .error .badIndex

/-- Modelled from the spec (4.G): resolution walk from a starting file. -/
def specResolveGo (v : Volume) : List String → File → Except ResolveErr File
  | [], f => .ok f
  | p :: rest, f =>
    match specResolveStep v f p with
    | .error e => .error e
    | .ok f2 => specResolveGo v rest f2

/-- Modelled from the spec (4.G): full path resolution from the MFD. -/
def specResolvePath (v : Volume) (path : String) : Except ResolveErr File :=
  specResolveGo v (pathParts path) v.mfd

/-- One adaptor call with its arguments. -/
inductive OpCall where
  | getattrOp (uid gid : ℕ) (path : String)
  | readdirOp (path : String)
  | readlinkOp (path : String)
  | readOp (path : String) (length offset : ℕ)

/-- The result of one adaptor call. -/
inductive OpResult where
  | statR (r : Except PyErr Stat)
  | listR (r : Except PyErr (List String))
  | strR (s : String)
  | bytesR (r : Except PyErr (List ℕ))

/-- One adaptor call in state-passing form.  The four methods (source
lines 370-436) contain no assignment to `self` or to any object
reachable from it, so the embedding of each call returns the volume it
was given. -/
def applyOp (v : Volume) : OpCall → OpResult × Volume
  | .getattrOp uid gid p => (.statR (ODS2.getattr v uid gid p), v)
  | .readdirOp p => (.listR (ODS2.readdir v p), v)
  | .readlinkOp p => (.strR (ODS2.readlink v p), v)
  | .readOp p len off => (.bytesR (ODS2.read v p len off), v)

/-- Run a sequence of adaptor calls, threading the volume state. -/
def runOps (v : Volume) : List OpCall → List OpResult × Volume
  | [] => ([], v)
  | op :: rest =>
    let s := applyOp v op
    let t := runOps s.2 rest
    (s.1 :: t.1, t.2)

/-- Whether an `Except` result is a normal return. -/
def exceptIsOk {ε α : Type} : Except ε α → Bool
  | .ok _ => true
  | .error _ => false

/-- A list of `n` zero bytes. -/
def zeros (n : ℕ) : List ℕ := List.replicate n 0

/-- Little-endian encoding of a 16-bit value. -/
def le16b (n : ℕ) : List ℕ := [n % 256, n / 256 % 256]

/-- Little-endian encoding of a 32-bit value. -/
def le32b (n : ℕ) : List ℕ := [n % 256, n / 256 % 256, n / 65536 % 256, n / 16777216 % 256]

/-- Overwrite bytes of `d` starting at `off` with `src`. -/
def overwrite (d : List ℕ) (off : ℕ) (src : List ℕ) : List ℕ :=
  d.take off ++ src ++ d.drop (off + src.length)

/-- A minimal file header value used as a base for concrete volumes. -/
def baseFile : File :=
  { fid := ⟨1, 1, 0⟩, ext_fid := ⟨0, 0, 0⟩, is_directory := false
    create_time := 0, revision_time := 0, name := none
    map := [], total_block_count := 0, size := 512, records := [] }

/-- A minimal volume value used as a base for concrete volumes. -/
def baseVolume : Volume :=
  { disk := ⟨0, fun _ => 0⟩, mountpoint := "/mnt", structure_name := "", volume_name := ""
    owner_name := "", format := "", reserved_file_count := 0, bitmap_blocks := 0
    index_file := baseFile, mfd := baseFile, files := [] }

/-- Format-3 retrieval pointer bytes: as a little-endian
`W_COUNT2_AND_FMT, W_LOWCOUNT, L_LBN3` record this is count-high 1
(format bits 3), low count 2, LBN 0x1234. -/
def d2 : Bytes := ofList [1, 192, 2, 0, 52, 18, 0, 0]

/-- A file with extents (lbn 100, count 3) and (lbn 200, count 2). -/
def c1file : File :=
  { baseFile with map := [⟨100, 3⟩, ⟨200, 2⟩], total_block_count := 5, size := 2560 }

/-- A one-block file mapped to LBN 1. -/
def c3file : File :=
  { baseFile with map := [⟨1, 1⟩], total_block_count := 1, size := 512 }

/-- A two-block disk whose second block is 512 copies of byte 7. -/
def c3disk : Bytes := ⟨1024, fun i => if i < 512 then 0 else 7⟩

/-- Volume whose MFD is `c3file` over `c3disk`. -/
def c3vol : Volume := { baseVolume with disk := c3disk, mfd := c3file, files := [some c3file] }

/-- A directory data block prefix: one record (W_SIZE 20, no name, two
entries) followed by the 0xFFFF end sentinel; the rest of the block is
zero. -/
def c5block : List ℕ :=
  [20, 0, 0, 0, 0, 0] ++ [0, 0, 7, 0, 1, 0, 0, 0] ++ [0, 0, 8, 0, 2, 0, 0, 0] ++
    [255, 255]

/-- A two-block disk whose VBN-1 data block starts with `c5block`. -/
def d5 : Bytes := ⟨1024, fun i => if i < 512 then 0 else c5block.getD (i - 512) 0⟩

/-- The single-extent map of the directory used for the C5 input. -/
def c5map : List Extent := [⟨1, 1⟩]

/-- Directory record bytes with `W_SIZE = 14` and `B_NAMECOUNT = 0`,
followed by 16 bytes of entry data. -/
def d6 : Bytes :=
  ofList ([14, 0, 0, 0, 0, 0] ++ [0, 0, 7, 0, 1, 0, 0, 0] ++ [0, 0, 8, 0, 2, 0, 0, 0])

/-- The record decoded from `d6` at offset 0. -/
def r6 : DirectoryRecord :=
  { size := 16, name := "", entries := [⟨⟨7, 1, 0⟩⟩, ⟨⟨8, 2, 0⟩⟩] }

/-- Target file for the C7 resolution witness. -/
def c7fileA : File := { baseFile with fid := ⟨1, 1, 0⟩ }

/-- Directory record pointing at file number 1 under the name A.TXT. -/
def c7rec : DirectoryRecord := { size := 10, name := "A.TXT", entries := [⟨⟨1, 5, 0⟩⟩] }

/-- Volume whose MFD holds the single record `c7rec`. -/
def cv7 : Volume :=
  { baseVolume with
    mfd := { baseFile with is_directory := true, records := [c7rec] }
    files := [some c7fileA] }

/-- Volume for the readdir witness: one reserved-file record (file number
1) and one visible record (file number 6), with 5 reserved files. -/
def c8vol : Volume :=
  { baseVolume with
    reserved_file_count := 5
    mfd := { baseFile with
             is_directory := true
             records := [⟨10, "INDEXF.SYS", [⟨⟨1, 1, 0⟩⟩]⟩, ⟨10, "HELLO.TXT", [⟨⟨6, 1, 0⟩⟩]⟩] } }

/-- A 59-byte header whose identification and map offsets are both 0xFF. -/
def c10disk : Bytes := ofList (255 :: 255 :: zeros 57)

/-- The file decoded from `c10disk` at offset 0. -/
def c10file : File :=
  { baseFile with fid := ⟨0, 0, 0⟩, ext_fid := ⟨0, 0, 0⟩ }

/-- Volume whose MFD is `c10file`. -/
def c10vol : Volume := { baseVolume with mfd := c10file }

/-- Synthetic home block: `L_IBMAPLBN = 2`, `W_IBMAPSIZE = 1`,
`W_RESFILES = 5`, all other fields zero. -/
def c4home (j : ℕ) : ℕ :=
  if j = 24 then 2 else if j = 32 then 1 else if j = 34 then 5 else 0

/-- Synthetic INDEXF.SYS header at LBN 3: no identification area, map at
word offset 30 with four format-1 pointers (counts 1,1,1,3 at LBNs
0,1,2,3), 8 map words in use. -/
def c4ihdr (j : ℕ) : ℕ :=
  if j = 0 then 255 else if j = 1 then 30 else if j = 58 then 8 else
  if 60 ≤ j ∧ j < 76 then
    ([1, 64, 0, 0] ++ [1, 64, 1, 0] ++ [1, 64, 2, 0] ++ [3, 64, 3, 0]).getD (j - 60) 0
  else 0

/-- The identification area of the synthetic MFD header: the 20-byte name
field `000000.DIR;1` padded with spaces, zeroed revision word and
timestamps, and a 66-byte name extension of spaces. -/
def c4ident : List ℕ :=
  [48, 48, 48, 48, 48, 48, 46, 68, 73, 82, 59, 49] ++ List.replicate 8 32 ++
    zeros 34 ++ List.replicate 66 32

/-- Synthetic MFD header at LBN 4: identification area at word offset 40
with name `000000.DIR;1`, no map area, file id 1, directory bit set. -/
def c4mhdr (j : ℕ) : ℕ :=
  if j = 0 then 40 else if j = 1 then 255 else
  if 8 ≤ j ∧ j < 14 then [1, 0, 1, 0, 0, 0].getD (j - 8) 0 else
  if j = 53 then 32 else
  if 80 ≤ j ∧ j < 200 then c4ident.getD (j - 80) 0 else 0

/-- A six-block synthetic volume image: boot block, home block, bitmap
block, INDEXF.SYS header, MFD header, and an unused (zero) header
block. -/
def c4disk : Bytes :=
  ⟨3072, fun i =>
    if i < 512 then 0 else
    if i < 1024 then c4home (i - 512) else
    if i < 1536 then 0 else
    if i < 2048 then c4ihdr (i - 1536) else
    if i < 2560 then c4mhdr (i - 2048) else 0⟩


lemma sumCounts_cons (e : Extent) (t : List Extent) :
    sumCounts (e :: t) = e.block_count + sumCounts t := by
  simp [sumCounts]

lemma sumCounts_take_succ (m : List Extent) :
    ∀ (i : ℕ) (e : Extent), m.get? i = some e →
      sumCounts (m.take (i + 1)) = sumCounts (m.take i) + e.block_count := by
  induction m with
  | nil => intro i e h; simp at h
  | cons a t ih =>
    intro i e h
    cases i with
    | zero =>
      simp only [List.get?_cons_zero, Option.some_inj] at h
      subst h
      simp [sumCounts_cons, sumCounts]
    | succ j =>
      simp only [List.get?_cons_succ] at h
      simp only [List.take_succ_cons, sumCounts_cons, ih j e h]
      omega

lemma sumCounts_take_le (m : List Extent) (k : ℕ) :
    sumCounts (m.take k) ≤ sumCounts m := by
  have h : sumCounts (m.take k) + sumCounts (m.drop k) = sumCounts m := by
    rw [sumCounts, sumCounts, sumCounts, ← List.sum_append, ← List.map_append,
      List.take_append_drop]
  omega

lemma getLbnGo_eq_some (m : List Extent) :
    ∀ (base v : ℤ) (i : ℕ) (e : Extent), m.get? i = some e →
      base + (sumCounts (m.take i) : ℤ) ≤ v →
      v < base + (sumCounts (m.take i) : ℤ) + (e.block_count : ℤ) →
      getLbnGo base m v = some ((e.lbn : ℤ) + (v - base - (sumCounts (m.take i) : ℤ))) := by
  induction m with
  | nil => intro base v i e h; simp at h
  | cons a t ih =>
    intro base v i e h h1 h2
    cases i with
    | zero =>
      simp only [List.get?_cons_zero, Option.some_inj] at h
      subst h
      simp only [List.take_zero, sumCounts, List.map_nil, List.sum_nil, Nat.cast_zero,
        add_zero] at h1 h2 ⊢
      rw [getLbnGo, if_pos ⟨h1, h2⟩]
      congr 1
      omega
    | succ j =>
      simp only [List.get?_cons_succ] at h
      have hs : (sumCounts ((a :: t).take (j + 1)) : ℤ) =
          (a.block_count : ℤ) + (sumCounts (t.take j) : ℤ) := by
        rw [List.take_succ_cons, sumCounts_cons]
        push_cast
        ring
      rw [hs] at h1 h2
      have hhead : ¬(base ≤ v ∧ v < base + (a.block_count : ℤ)) := by
        intro hc
        omega
      rw [getLbnGo, if_neg hhead,
        ih (base + (a.block_count : ℤ)) v j e h (by omega) (by omega), hs]
      congr 1
      ring

lemma getLbnGo_eq_none (m : List Extent) :
    ∀ (base v : ℤ),
      (∀ (i : ℕ) (e : Extent), m.get? i = some e →
        ¬(base + (sumCounts (m.take i) : ℤ) ≤ v ∧
          v < base + (sumCounts (m.take i) : ℤ) + (e.block_count : ℤ))) →
      getLbnGo base m v = none := by
  induction m with
  | nil => intro base v _; rfl
  | cons a t ih =>
    intro base v h
    have h0 : ¬(base ≤ v ∧ v < base + (a.block_count : ℤ)) := by
      have := h 0 a (by simp)
      simpa [sumCounts] using this
    rw [getLbnGo, if_neg h0]
    apply ih
    intro i e hi hc
    apply h (i + 1) e (by simpa using hi)
    have hs : (sumCounts ((a :: t).take (i + 1)) : ℤ) =
        (a.block_count : ℤ) + (sumCounts (t.take i) : ℤ) := by
      rw [List.take_succ_cons, sumCounts_cons]
      push_cast
      ring
    rw [hs]
    exact ⟨by omega, by omega⟩

lemma exists_containing (m : List Extent) :
    ∀ v : ℤ, 0 ≤ v → v < (sumCounts m : ℤ) →
      ∃ (i : ℕ) (e : Extent), m.get? i = some e ∧
        (sumCounts (m.take i) : ℤ) ≤ v ∧
        v < (sumCounts (m.take i) : ℤ) + (e.block_count : ℤ) := by
  induction m with
  | nil =>
    intro v h0 h1
    simp only [sumCounts, List.map_nil, List.sum_nil, Nat.cast_zero] at h1
    omega
  | cons a t ih =>
    intro v h0 h1
    by_cases hc : v < (a.block_count : ℤ)
    · refine ⟨0, a, by simp, ?_, ?_⟩
      · simpa [sumCounts] using h0
      · simpa [sumCounts] using hc
    · have hsc : (sumCounts (a :: t) : ℤ) = (a.block_count : ℤ) + (sumCounts t : ℤ) := by
        rw [sumCounts_cons]; push_cast; ring
      obtain ⟨i, e, hi, hl, hr⟩ := ih (v - (a.block_count : ℤ)) (by omega) (by omega)
      have hs : (sumCounts ((a :: t).take (i + 1)) : ℤ) =
          (a.block_count : ℤ) + (sumCounts (t.take i) : ℤ) := by
        rw [List.take_succ_cons, sumCounts_cons]
        push_cast
        ring
      refine ⟨i + 1, e, by simpa using hi, ?_, ?_⟩
      · rw [hs]; omega
      · rw [hs]; omega

/-- C1: for a file whose `total_block_count` is the sum of its extent
counts, `get_lbn_for_vbn` on a VBN `v` in `[1, total_block_count]` finds
the extent `(lbn, c)` with accumulated base `b` such that
`v - 1 ∈ [b, b + c)` and returns `lbn + (v - 1 - b)`; a `v` lying in no
extent — in particular `v ≤ 0` or `v > total_block_count` — yields no
result. -/
theorem c1_vbn_to_lbn (f : File) (hsum : f.total_block_count = sumCounts f.map) (v : ℤ) :
    (1 ≤ v → v ≤ (f.total_block_count : ℤ) →
      ∃ (i : ℕ) (e : Extent), f.map.get? i = some e ∧
        (sumCounts (f.map.take i) : ℤ) ≤ v - 1 ∧
        v - 1 < (sumCounts (f.map.take i) : ℤ) + (e.block_count : ℤ) ∧
        f.get_lbn_for_vbn v =
          some ((e.lbn : ℤ) + (v - 1 - (sumCounts (f.map.take i) : ℤ)))) ∧
    ((∀ (i : ℕ) (e : Extent), f.map.get? i = some e →
        ¬((sumCounts (f.map.take i) : ℤ) ≤ v - 1 ∧
          v - 1 < (sumCounts (f.map.take i) : ℤ) + (e.block_count : ℤ))) →
      f.get_lbn_for_vbn v = none) ∧
    (v ≤ 0 → f.get_lbn_for_vbn v = none) ∧
    ((f.total_block_count : ℤ) < v → f.get_lbn_for_vbn v = none) := by
  refine ⟨?_, ?_, ?_, ?_⟩
  · intro h1 h2
    obtain ⟨i, e, hi, hl, hr⟩ := exists_containing f.map (v - 1) (by omega)
      (by rw [hsum] at h2; omega)
    refine ⟨i, e, hi, hl, hr, ?_⟩
    have := getLbnGo_eq_some f.map 0 (v - 1) i e hi (by omega) (by omega)
    rw [File.get_lbn_for_vbn, this]
    congr 1
    ring
  · intro h
    apply getLbnGo_eq_none
    intro i e hi hc
    exact h i e hi ⟨by omega, by omega⟩
  · intro h0
    apply getLbnGo_eq_none
    intro i e hi hc
    omega
  · intro hgt
    apply getLbnGo_eq_none
    intro i e hi hc
    have hle : sumCounts (f.map.take (i + 1)) ≤ sumCounts f.map := sumCounts_take_le _ _
    rw [sumCounts_take_succ f.map i e hi] at hle
    rw [hsum] at hgt
    omega

/-- C1 witness: the theorem applied to the concrete two-extent file at
VBN 6 (one past the last mapped block). -/
theorem c1_vbn_to_lbn_witness :
    c1file.total_block_count = sumCounts c1file.map ∧ c1file.get_lbn_for_vbn 6 = none :=
  ⟨by decide, (c1_vbn_to_lbn c1file (by decide) 6).2.2.2 (by decide)⟩

/-- C2: on the format-3 pointer bytes `01 C0 02 00 34 12 00 00` the map
decoder consumes 8 bytes but unpacks them with native `'BBH'` layout,
producing the extent (lbn 2, count 0x100C0) instead of the documented
little-endian `u16 W_COUNT2_AND_FMT, u16 W_LOWCOUNT, u32 L_LBN3` decoding
(lbn 0x1234, count 0x10002). -/
theorem c2_format3_divergence :
    readMapLoop d2 9 0 8 = .ok [⟨2, 65728⟩] ∧
    readMapLoop d2 9 0 8 ≠ .ok [⟨4660, 65538⟩] :=
  ⟨by decide, by decide⟩

lemma entriesLoop_ok (disk : Bytes) :
    ∀ (n off : ℕ) (es : List DirectoryEntry), entriesLoop disk n off = .ok es →
      es.length = n ∧ ∀ j : ℕ, j < n →
        es.get? j = some ⟨FileID.init disk (off + 8 * j + 2)⟩ := by
  intro n
  induction n with
  | zero =>
    intro off es h
    simp only [entriesLoop] at h
    obtain rfl : ([] : List DirectoryEntry) = es := by simpa using h
    exact ⟨rfl, fun j hj => absurd hj (by omega)⟩
  | succ n ih =>
    intro off es h
    simp only [entriesLoop] at h
    split at h
    · simp at h
    · cases hrec : entriesLoop disk n (off + 8) with
      | error e => rw [hrec] at h; simp [Except.map] at h
      | ok rest =>
        rw [hrec] at h
        simp only [Except.map] at h
        obtain rfl : (⟨FileID.init disk (off + 2)⟩ : DirectoryEntry) :: rest = es := by
          simpa using h
        obtain ⟨hlen, hget⟩ := ih (off + 8) rest hrec
        refine ⟨by simp [hlen], ?_⟩
        intro j hj
        cases j with
        | zero =>
          show some (⟨FileID.init disk (off + 2)⟩ : DirectoryEntry) =
            some ⟨FileID.init disk (off + 8 * 0 + 2)⟩
          norm_num
        | succ k =>
          have hk := hget k (by omega)
          have harg : off + 8 + 8 * k + 2 = off + 8 * (k + 1) + 2 := by ring
          rw [harg] at hk
          simpa using hk

/-- C6 amended: the decoder parses exactly
`int((W_SIZE + 2 - B_NAMECOUNT) / 8)` directory entries — the 6-byte
fixed record header is not subtracted — each 8 bytes wide with the
6-byte file id decoded at byte offset 2 of the entry, starting after the
name and the odd-byte alignment pad. -/
theorem c6_record_entries_amended (d : Bytes) (off : ℕ) (r : DirectoryRecord)
    (h : DirectoryRecord.init d off = .ok r) :
    r.size = le16 d off + 2 ∧
    r.entries.length = (((r.size : ℤ) - (byteAt d (off + 5) : ℤ)).tdiv 8).toNat ∧
    (∀ j : ℕ, j < r.entries.length →
      r.entries.get? j = some ⟨FileID.init d
        ((if (off + 6 + byteAt d (off + 5)) % 2 = 1
          then off + 6 + byteAt d (off + 5) + 1
          else off + 6 + byteAt d (off + 5)) + 8 * j + 2)⟩) := by
  simp only [DirectoryRecord.init] at h
  split at h
  · simp at h
  · split at h
    · simp at h
    · rename_i chars hchars
      cases hrec : entriesLoop d ((((le16 d off + 2 : ℕ) : ℤ) - (byteAt d (off + 5) : ℤ)).tdiv 8).toNat
          (if (off + 6 + byteAt d (off + 5)) % 2 = 1
           then off + 6 + byteAt d (off + 5) + 1
           else off + 6 + byteAt d (off + 5)) with
      | error e => rw [hrec] at h; simp [Except.map] at h
      | ok es =>
        rw [hrec] at h
        simp only [Except.map] at h
        obtain rfl : (⟨le16 d off + 2, String.mk (stripTrailingDot chars), es⟩ :
            DirectoryRecord) = r := by simpa using h
        obtain ⟨hlen, hget⟩ := entriesLoop_ok d _ _ es hrec
        refine ⟨rfl, by simpa using hlen, ?_⟩
        intro j hj
        have hj2 : j < es.length := hj
        rw [hlen] at hj2
        have := hget j hj2
        simpa using this

/-- C6 counterexample: on the record bytes `d6` (W_SIZE 14, B_NAMECOUNT
0) the decoder produces 2 entries, not the claimed
`(W_SIZE + 2 - 6 - B_NAMECOUNT) / 8 = 1`. -/
theorem c6_counterexample :
    (DirectoryRecord.init d6 0).map (fun r => r.entries.length) = .ok 2 ∧
    (2 : ℕ) ≠ ((14 + 2 - 6 - 0 : ℤ).tdiv 8).toNat :=
  ⟨by decide, by decide⟩

/-- C6 witness: the amended theorem applied to the concrete record
bytes `d6`. -/
theorem c6_record_entries_witness :
    r6.size = le16 d6 0 + 2 ∧
    r6.entries.length = (((r6.size : ℤ) - (byteAt d6 (0 + 5) : ℤ)).tdiv 8).toNat := by
  have h : DirectoryRecord.init d6 0 = .ok r6 := by decide
  exact ⟨(c6_record_entries_amended d6 0 r6 h).1, (c6_record_entries_amended d6 0 r6 h).2.1⟩

lemma rdrAux_eq_recordsOfVbns (disk : Bytes) (map : List Extent) :
    ∀ (k vbn : ℕ), rdrAux disk map k vbn = recordsOfVbns disk map (List.range' vbn k) := by
  intro k
  induction k with
  | zero => intro vbn; rfl
  | succ n ih =>
    intro vbn
    rw [List.range'_succ]
    simp only [rdrAux, recordsOfVbns, ih]

/-- C5 amended: directory parsing processes exactly the blocks for VBNs
1 through `total_block_count - 1` (the Python `range(1, total)` upper
bound is exclusive, so the final VBN is never read), reading up to 62
records per block and stopping within a block at the first record whose
`W_SIZE`, read as a signed 16-bit integer, is negative. -/
theorem c5_directory_scan_amended :
    (∀ (disk : Bytes) (map : List Extent) (total : ℕ),
      read_directory_records disk map total =
        recordsOfVbns disk map (List.range' 1 (total - 1))) ∧
    (∀ (disk : Bytes) (off : ℕ), off + 2 ≤ disk.len → signed16 (le16 disk off) < 0 →
      blockRecordsLoop disk 62 off = .ok []) := by
  constructor
  · intro disk map total
    exact rdrAux_eq_recordsOfVbns disk map (total - 1) 1
  · intro disk off hb hs
    show blockRecordsLoop disk (61 + 1) off = .ok []
    rw [blockRecordsLoop.eq_2, if_neg (by omega), if_pos hs]

/-- C5 counterexample: a one-block directory (`total_block_count = 1`)
whose VBN-1 block holds a parseable record yields no records at all —
the claimed inclusive upper bound fails. -/
theorem c5_counterexample :
    read_directory_records d5 c5map 1 = .ok [] ∧
    blockRecordsLoop d5 62 512 ≠ .ok [] :=
  ⟨by decide, by decide⟩

/-- C5 witness: the sentinel clause of the amended theorem applied to a
block that starts with the 0xFFFF end marker. -/
theorem c5_directory_scan_witness :
    blockRecordsLoop (ofList [255, 255]) 62 0 = .ok [] :=
  c5_directory_scan_amended.2 (ofList [255, 255]) 0 (by decide) (by decide)

/-- C10: a header whose map-offset byte `B_MPOFFSET` is 0xFF decodes to
an empty extent map, `total_block_count` 0 and `size` 512 (one block,
not 0), and `getattr` reports `st_size` equal to that 512-byte size for
any path resolving to such a file. -/
theorem c10_absent_map_size :
    (∀ (disk : Bytes) (off : ℕ) (f : File), File.init disk off = .ok f →
      byteAt disk (off + 1) = 255 →
      f.map = [] ∧ f.total_block_count = 0 ∧ f.size = 512 ∧ f.size ≠ 0) ∧
    (∀ (v : Volume) (uid gid : ℕ) (path : String) (f : File),
      ODS2.get_file_by_path v path = .ok (some f) → f.size = 512 →
      (ODS2.getattr v uid gid path).map Stat.st_size = .ok 512) := by
  constructor
  · intro disk off f h hmp
    rw [File.init] at h
    split at h
    · simp at h
    · simp only [hmp, if_true, read_directory_records, Nat.zero_sub, rdrAux,
        Option.getD, ite_self] at h
      split at h
      · simp at h
      · simp only [Except.ok.injEq] at h
        subst h
        simp
  · intro v uid gid path f hres hsize
    rw [ODS2.getattr, hres]
    simp [Except.map, hsize]

/-- C10 witness: the theorem applied to the concrete 0xFF-offsets header
`c10disk` and the volume `c10vol` whose MFD it decodes to. -/
theorem c10_absent_map_size_witness :
    c10file.size = 512 ∧ (ODS2.getattr c10vol 0 0 "/").map Stat.st_size = .ok 512 := by
  have h1 := c10_absent_map_size.1 c10disk 0 c10file (by decide) (by decide)
  have h2 := c10_absent_map_size.2 c10vol 0 0 "/" c10file (by decide) (by decide)
  exact ⟨h1.2.2.1, h2⟩

/-- The file number of a record's first directory entry (0 when the
record has no entries; the source raises in that case). -/
def firstEntryFileNumber (r : DirectoryRecord) : ℕ :=
  match r.entries with
  | [] => 0
  | e :: _ => e.fid.file_number

lemma direntsLoop_ok (reserved : ℕ) :
    ∀ (recs : List DirectoryRecord), (∀ r ∈ recs, r.entries ≠ []) →
      direntsLoop reserved recs =
        .ok ((recs.filter (fun r => decide (reserved < firstEntryFileNumber r))).map
          DirectoryRecord.name) := by
  intro recs
  induction recs with
  | nil => intro _; rfl
  | cons r rest ih =>
    intro h
    have hr : r.entries ≠ [] := h r (by simp)
    cases hrec : r.entries with
    | nil => exact absurd hrec hr
    | cons e es =>
      simp only [direntsLoop, hrec]
      rw [ih (fun x hx => h x (List.mem_cons_of_mem r hx))]
      simp only [Except.map]
      by_cases hcmp : reserved < e.fid.file_number
      · have hne : ¬(e.fid.file_number ≤ reserved) := by omega
        simp [List.filter_cons, firstEntryFileNumber, hrec, hcmp, hne]
      · have hle : e.fid.file_number ≤ reserved := by omega
        simp [List.filter_cons, firstEntryFileNumber, hrec, hcmp, hle]

/-- C8: a read at an offset that is not a multiple of 512 returns empty
bytes regardless of path and length (the diagnostic print is the only
other effect), and `readdir` yields `.`, `..`, then exactly the names of
the records whose first entry's file number strictly exceeds
`reserved_file_count`, in record order. -/
theorem c8_unaligned_and_readdir :
    (∀ (v : Volume) (path : String) (length offset : ℕ), offset % 512 ≠ 0 →
      ODS2.read v path length offset = .ok []) ∧
    (∀ (v : Volume) (path : String) (f : File),
      ODS2.get_file_by_path v path = .ok (some f) →
      (∀ r ∈ f.records, r.entries ≠ []) →
      ODS2.readdir v path =
        .ok ("." :: ".." ::
          (f.records.filter
            (fun r => decide (v.reserved_file_count < firstEntryFileNumber r))).map
            DirectoryRecord.name)) := by
  constructor
  · intro v path length offset h
    rw [ODS2.read, if_pos h]
  · intro v path f hres h
    rw [ODS2.readdir, hres]
    show Except.map (fun names => "." :: ".." :: names)
      (direntsLoop v.reserved_file_count f.records) = _
    rw [direntsLoop_ok v.reserved_file_count f.records h]
    rfl

/-- C8 witness: the theorem applied to the concrete volume `c8vol` at an
unaligned offset and on the root directory, whose reserved-file record is
hidden. -/
theorem c8_unaligned_and_readdir_witness :
    ODS2.read c8vol "/" 5 7 = .ok [] ∧
    ODS2.readdir c8vol "/" = .ok [".", "..", "HELLO.TXT"] := by
  refine ⟨c8_unaligned_and_readdir.1 c8vol "/" 5 7 (by decide), ?_⟩
  rw [c8_unaligned_and_readdir.2 c8vol "/" c8vol.mfd (by decide) (by decide)]
  decide

/-- C9: every adaptor call — `getattr`, `readdir`, `readlink`, `read` —
and every sequence of such calls leaves the volume state (image buffer,
file table, MFD, reserved count, and all decoded structures) unchanged;
the source methods contain no post-bootstrap mutation. -/
theorem c9_ops_preserve_state (v : Volume) (ops : List OpCall) :
    (runOps v ops).2 = v ∧ ∀ op : OpCall, (applyOp v op).2 = v := by
  constructor
  · induction ops with
    | nil => rfl
    | cons op rest ih =>
      cases op <;> simpa [runOps, applyOp] using ih
  · intro op
    cases op <;> rfl

lemma pyGet_of_get? {α : Type} (l : List α) (n : ℕ) (x : α) (h : l[n]? = some x) :
    pyGet l (n : ℤ) = .ok x := by
  have hn : n < l.length := by
    by_contra hc
    rw [List.getElem?_eq_none (by omega)] at h
    simp at h
  have hn2 : (n : ℤ) < (l.length : ℤ) := by exact_mod_cast hn
  simp [pyGet, pyNormIdx, hn2, h, Int.natCast_nonneg]

lemma resolve_agree (v : Volume) :
    ∀ (parts : List String) (f : File),
      (∀ g : File, specResolveGo v parts f = .ok g →
        resolveGo v parts (some f) = .ok (some g)) ∧
      (specResolveGo v parts f = .error .noRecord →
        resolveGo v parts (some f) = .error .attributeError) := by
  intro parts
  induction parts with
  | nil =>
    intro f
    constructor
    · intro g hg
      simp only [specResolveGo] at hg
      obtain rfl : f = g := by simpa using hg
      rfl
    · intro hg
      simp [specResolveGo] at hg
  | cons p rest ih =>
    intro f
    cases hrec : f.get_record_by_name p with
    | none =>
      constructor
      · intro g hg
        simp [specResolveGo, specResolveStep, hrec] at hg
      · intro _
        simp [resolveGo, hrec]
    | some rec =>
      cases hent : rec.entries with
      | nil =>
        constructor
        · intro g hg
          simp [specResolveGo, specResolveStep, hrec, hent] at hg
        · intro hg
          simp [specResolveGo, specResolveStep, hrec, hent] at hg
      | cons e es =>
        by_cases hfn : 1 ≤ e.fid.file_number
        · cases hfile : v.files[e.fid.file_number - 1]? with
          | none =>
            constructor
            · intro g hg
              simp [specResolveGo, specResolveStep, hrec, hent, hfn, hfile] at hg
            · intro hg
              simp [specResolveGo, specResolveStep, hrec, hent, hfn, hfile] at hg
          | some entry =>
            cases entry with
            | none =>
              constructor
              · intro g hg
                simp [specResolveGo, specResolveStep, hrec, hent, hfn, hfile] at hg
              · intro hg
                simp [specResolveGo, specResolveStep, hrec, hent, hfn, hfile] at hg
            | some f2 =>
              have hstep : specResolveStep v f p = .ok f2 := by
                simp [specResolveStep, hrec, hent, hfn, hfile]
              have hidx : (e.fid.file_number : ℤ) - 1 =
                  ((e.fid.file_number - 1 : ℕ) : ℤ) := by omega
              have hpy : pyGet v.files ((e.fid.file_number : ℤ) - 1) = .ok (some f2) := by
                rw [hidx]
                exact pyGet_of_get? v.files (e.fid.file_number - 1) (some f2) hfile
              constructor
              · intro g hg
                simp only [specResolveGo, hstep] at hg
                simp only [resolveGo, hrec, hent, hpy]
                exact (ih f2).1 g hg
              · intro hg
                simp only [specResolveGo, hstep] at hg
                simp only [resolveGo, hrec, hent, hpy]
                exact (ih f2).2 hg
        · constructor
          · intro g hg
            simp [specResolveGo, specResolveStep, hrec, hent, hfn] at hg
          · intro hg
            simp [specResolveGo, specResolveStep, hrec, hent, hfn] at hg

/-- C7 amended: path resolution strips one leading and one trailing
slash, splits on `/`, and from the MFD follows for each component the
record whose name matches, indexing the file table with the first
entry's file number minus one — on success it agrees with the spec-side
resolver; but when a component has no matching directory record the code
raises `AttributeError` (accessing fields of `None`) instead of
returning a clean "not found" result; the FUSE layer surfaces the
exception as a generic error. -/
theorem c7_resolution_amended (v : Volume) (path : String) :
    (∀ f : File, specResolvePath v path = .ok f →
      ODS2.get_file_by_path v path = .ok (some f)) ∧
    (specResolvePath v path = .error .noRecord →
      ODS2.get_file_by_path v path = .error .attributeError) := by
  have h := resolve_agree v (pathParts path) v.mfd
  exact ⟨fun f hf => h.1 f hf, fun hf => h.2 hf⟩

/-- C7 counterexample: on a volume whose MFD lacks the requested name,
resolution does not return normally at all — it raises
`AttributeError` — so it does not "return a not-found failure rather
than crashing". -/
theorem c7_counterexample :
    ODS2.get_file_by_path cv7 "/MISSING.TXT" = .error .attributeError ∧
    exceptIsOk (ODS2.get_file_by_path cv7 "/MISSING.TXT") = false :=
  ⟨by decide, by decide⟩

/-- C7 witness: the amended theorem applied to the concrete volume
`cv7`, on which the spec-side resolver succeeds. -/
theorem c7_resolution_witness :
    ODS2.get_file_by_path cv7 "/A.TXT" = .ok (some c7fileA) :=
  (c7_resolution_amended cv7 "/A.TXT").1 c7fileA (by decide)

lemma pySlice_length (d : Bytes) (a b : ℕ) (hb : b ≤ d.len) (hab : a ≤ b) :
    (pySlice d a b).length = b - a := by
  simp only [pySlice, List.length_map, List.length_range']
  omega

lemma pySliceAssign_append (data r : List ℕ) (b : ℕ) (hb : data.length ≤ b) :
    pySliceAssign data data.length b r = data ++ r := by
  simp [pySliceAssign, Nat.min_eq_right hb]

lemma readLoop_length (disk : Bytes) (f : File) :
    ∀ (fuel : ℕ) (data : List ℕ) (dataOffset offset endOffset : ℕ),
      data.length = dataOffset →
      offset % 512 = 0 →
      (endOffset - offset + 511) / 512 ≤ fuel →
      (∀ b : ℕ, offset / 512 ≤ b → b * 512 < endOffset →
        ∃ l : ℤ, f.get_lbn_for_vbn ((b + 1 : ℕ) : ℤ) = some l ∧ 0 ≤ l ∧
          l.toNat * 512 + 512 ≤ disk.len) →
      ∃ bs, readLoop disk f fuel data dataOffset offset endOffset = .ok bs ∧
        bs.length = dataOffset + 512 * ((endOffset - offset + 511) / 512) := by
  intro fuel
  induction fuel with
  | zero =>
    intro data dataOffset offset endOffset hdata halign hfuel hblocks
    have hend : endOffset ≤ offset := by omega
    refine ⟨data, ?_, ?_⟩
    · rw [readLoop, if_neg (by omega)]
    · omega
  | succ fuel ih =>
    intro data dataOffset offset endOffset hdata halign hfuel hblocks
    by_cases hlt : offset < endOffset
    · obtain ⟨l, hl, hl0, hbound⟩ := hblocks (offset / 512) (le_refl _) (by omega)
      have hmul : (l * 512).toNat = l.toNat * 512 := by omega
      have hslice : (pySlice disk (l.toNat * 512) (l.toNat * 512 + 512)).length = 512 := by
        rw [pySlice_length disk _ _ (by omega) (by omega)]
        omega
      have hassign : pySliceAssign data dataOffset (dataOffset + 512)
          (pySlice disk (l.toNat * 512) (l.toNat * 512 + 512)) =
          data ++ pySlice disk (l.toNat * 512) (l.toNat * 512 + 512) := by
        rw [← hdata]
        exact pySliceAssign_append _ _ _ (by omega)
      obtain ⟨bs, heq, hlen⟩ := ih
        (data ++ pySlice disk (l.toNat * 512) (l.toNat * 512 + 512))
        (dataOffset + 512) (offset + 512) endOffset
        (by simp [hslice]; omega)
        (by omega)
        (by omega)
        (by
          intro b hb hbe
          exact hblocks b (by omega) hbe)
      refine ⟨bs, ?_, ?_⟩
      · rw [readLoop, if_pos hlt]
        rw [hl]
        show readLoop disk f fuel
            (pySliceAssign data dataOffset (dataOffset + 512)
              (pySlice disk ((l * 512).toNat) ((l * 512).toNat + 512)))
            (dataOffset + 512) (offset + 512) endOffset = Except.ok bs
        rw [hmul, hassign]
        exact heq
      · rw [hlen]
        omega
    · refine ⟨data, ?_, ?_⟩
      · rw [readLoop, if_neg hlt]
      · omega

/-- C3 amended: for a resolvable path and a 512-aligned offset, `read`
returns a byte sequence whose length is `end - o` rounded up to a
multiple of 512, where `end = min(o + n, f.size)` — the loop copies
whole blocks, so an `n` that is not a multiple of 512 is over-served
rather than served exactly; reads beyond `f.size` are truncated to
whole-block coverage of `f.size - o`, and a read at `o = f.size` (or
with `n = 0`) returns empty bytes, assuming every needed VBN is mapped
to an in-bounds LBN. -/
theorem c3_read_length_amended (v : Volume) (path : String) (f : File) (o n : ℕ)
    (hres : ODS2.get_file_by_path v path = .ok (some f))
    (halign : o % 512 = 0)
    (hblocks : ∀ b : ℕ, o / 512 ≤ b → b * 512 < min (o + n) f.size →
      ∃ l : ℤ, f.get_lbn_for_vbn ((b + 1 : ℕ) : ℤ) = some l ∧ 0 ≤ l ∧
        l.toNat * 512 + 512 ≤ v.disk.len) :
    (ODS2.read v path n o).map List.length =
      .ok (512 * ((min (o + n) f.size - o + 511) / 512)) := by
  rw [ODS2.read, if_neg (by simp [halign]), hres]
  show (readLoop v.disk f (if o + n > f.size then f.size else o + n) [] 0 o
      (if o + n > f.size then f.size else o + n)).map List.length = _
  have hend : (if o + n > f.size then f.size else o + n) = min (o + n) f.size := by
    split <;> omega
  rw [hend]
  obtain ⟨bs, heq, hlen⟩ := readLoop_length v.disk f (min (o + n) f.size) [] 0 o
    (min (o + n) f.size) rfl halign (by omega) hblocks
  rw [heq]
  simp only [Except.map]
  rw [hlen]
  norm_num

/-- C3 counterexample: on the one-block file `c3file`, an aligned read
of length 1 returns 512 bytes, not the claimed `end - o = 1`. -/
theorem c3_counterexample :
    (ODS2.read c3vol "/" 1 0).map List.length = .ok 512 ∧
    (512 : ℕ) ≠ min (0 + 1) c3file.size - 0 :=
  ⟨by decide, by decide⟩

/-- C3 witness: the amended theorem applied to the concrete volume
`c3vol` for a full-block read. -/
theorem c3_read_length_witness :
    (ODS2.read c3vol "/" 512 0).map List.length =
      .ok (512 * ((min (0 + 512) c3file.size - 0 + 511) / 512)) := by
  apply c3_read_length_amended c3vol "/" c3file 0 512 (by decide) (by decide)
  intro b hb hlt
  have hb0 : b = 0 := by
    have hsz : min (0 + 512) c3file.size = 512 := by decide
    rw [hsz] at hlt
    omega
  subst hb0
  exact ⟨1, by decide, by decide, by decide⟩

lemma fileInit_size (disk : Bytes) (off : ℕ) (f : File) (h : File.init disk off = .ok f) :
    f.size = 512 ∨ f.size = f.total_block_count * 512 := by
  rw [File.init] at h
  split at h
  · simp at h
  · simp only [byteAt] at h
    split at h
    · simp at h
    · split at h
      · simp at h
      · split at h
        · simp at h
        · simp only [Except.ok.injEq] at h
          subst h
          rename_i mapOpt heq1 x recs heq
          cases mapOpt with
          | none => left; rfl
          | some m => right; rfl

lemma pyNormIdx_some {len : ℕ} {i : ℤ} {j : ℕ} (h : pyNormIdx len i = some j) :
    (0 ≤ i ∧ i < (len : ℤ) ∧ j = i.toNat) ∨
    (i < 0 ∧ -i ≤ (len : ℤ) ∧ j = len - (-i).toNat) := by
  unfold pyNormIdx at h
  split at h
  · split at h
    · left
      simp only [Option.some_inj] at h
      refine ⟨by omega, by omega, h.symm⟩
    · simp at h
  · split at h
    · right
      simp only [Option.some_inj] at h
      refine ⟨by omega, by omega, h.symm⟩
    · simp at h

lemma pySet_ok {α : Type} (l : List α) (i : ℤ) (x : α) (l2 : List α)
    (h : pySet l i x = .ok l2) :
    ∃ j : ℕ, pyNormIdx l.length i = some j ∧ l2 = l.set j x := by
  unfold pySet at h
  split at h
  · rename_i j hj
    exact ⟨j, hj, by simpa using h.symm⟩
  · simp at h

/-- Invariant of the bootstrap file table: every stored header was
decoded from the image, and one with a positive file number sits at
index `file_number - 1`. -/
def FilesInv (disk : Bytes) (files : List (Option File)) : Prop :=
  ∀ (i : ℕ) (f : File), files[i]? = some (some f) →
    (∃ off, File.init disk off = .ok f) ∧
    (1 ≤ f.fid.file_number → i = f.fid.file_number - 1)

/-- Invariant of the bootstrap MFD slot: when set, it holds a decoded
header named `000000.DIR`. -/
def MfdInv (disk : Bytes) (mfd : Option File) : Prop :=
  ∀ m : File, mfd = some m →
    ∃ off, File.init disk off = .ok m ∧ m.name = some "000000.DIR"

lemma scanLoop_inv (disk : Bytes) (indexFile : File) (bb : ℕ) :
    ∀ (vbns : List ℕ) (files : List (Option File)) (mfd : Option File)
      (files2 : List (Option File)) (mfd2 : Option File),
      scanLoop disk indexFile bb vbns files mfd = .ok (files2, mfd2) →
      FilesInv disk files → MfdInv disk mfd →
      FilesInv disk files2 ∧ MfdInv disk mfd2 := by
  intro vbns
  induction vbns with
  | nil =>
    intro files mfd files2 mfd2 h hf hm
    simp only [scanLoop, Except.ok.injEq, Prod.mk.injEq] at h
    obtain ⟨rfl, rfl⟩ := h
    exact ⟨hf, hm⟩
  | cons vbn rest ih =>
    intro files mfd files2 mfd2 h hf hm
    simp only [scanLoop] at h
    cases hlbn : indexFile.get_lbn_for_vbn ((bb + vbn : ℕ) : ℤ) with
    | none => rw [hlbn] at h; simp at h
    | some lbn =>
      rw [hlbn] at h
      simp only [byteAt] at h
      split at h
      · simp at h
      · split at h
        · -- zero first byte: scan stops with the current state
          simp only [Except.ok.injEq, Prod.mk.injEq] at h
          obtain ⟨rfl, rfl⟩ := h
          exact ⟨hf, hm⟩
        · -- a header is decoded (twice), named, and stored
          cases hinit : File.init disk ((lbn * 512).toNat) with
          | error e => rw [hinit] at h; simp at h
          | ok f =>
            rw [hinit] at h
            dsimp only at h
            cases hname : f.name with
            | none => rw [hname] at h; simp at h
            | some nm =>
              rw [hname] at h
              dsimp only at h
              cases hset : pySet files ((f.fid.file_number : ℤ) - 1) (some f) with
              | error e => rw [hset] at h; simp at h
              | ok filesB =>
                rw [hset] at h
                dsimp only at h
                obtain ⟨j, hj, rfl⟩ := pySet_ok _ _ _ _ hset
                refine ih _ _ _ _ h ?_ ?_
                · intro i g hg
                  rw [List.getElem?_set] at hg
                  by_cases hij : j = i
                  · subst hij
                    rw [if_pos rfl] at hg
                    split at hg
                    · obtain rfl : f = g := by simpa using hg
                      refine ⟨⟨(lbn * 512).toNat, hinit⟩, ?_⟩
                      intro h1
                      rcases pyNormIdx_some hj with ⟨hp0, hp1, hp2⟩ | ⟨hp0, hp1, hp2⟩
                      · omega
                      · omega
                    · simp at hg
                  · rw [if_neg hij] at hg
                    exact hf i g hg
                · intro m hm2
                  by_cases hisMfd : nm = "000000.DIR"
                  · rw [if_pos hisMfd] at hm2
                    obtain rfl : f = m := by simpa using hm2
                    exact ⟨(lbn * 512).toNat, hinit, by rw [hname, hisMfd]⟩
                  · rw [if_neg hisMfd] at hm2
                    exact hm m hm2

/-- C4 amended: after a successful bootstrap the volume's MFD is a
decoded header named `000000.DIR` whose size has been forced to the
sentinel 666, and every non-empty header stored in the table with file
number at least 1 sits at index `file_number - 1`; but because the
table slot receives a separately constructed header object whose size is
never forced, no table entry equals the volume's MFD object — every
decoded header's size is 512 or a multiple of 512, never 666. -/
theorem c4_bootstrap_amended (disk : Bytes) (mp : String) (v : Volume)
    (h : ODS2.read_home_block disk mp = .ok v) :
    v.mfd.size = 666 ∧
    (∃ (off : ℕ) (f : File), File.init disk off = .ok f ∧ f.name = some "000000.DIR" ∧
      v.mfd = { f with size := 666 }) ∧
    (∀ (i : ℕ) (f : File), v.files[i]? = some (some f) →
      (∃ off, File.init disk off = .ok f) ∧
      (1 ≤ f.fid.file_number → i = f.fid.file_number - 1)) ∧
    (∀ (i : ℕ) (f : File), v.files[i]? = some (some f) → f ≠ v.mfd) := by
  rw [ODS2.read_home_block] at h
  split at h
  · simp at h
  · dsimp only at h
    split at h
    · simp at h
    · split at h
      · simp at h
      · split at h
        · simp at h
        · split at h
          · simp at h
          · split at h
            · simp at h
            · split at h
              · simp at h
              · split at h
                · simp at h
                · rename_i x1 idx0 hidx x0 files0 fileOpt m hscan
                  simp only [Except.ok.injEq] at h
                  subst h
                  have hf0 : FilesInv disk
                      (List.replicate (idx0.total_block_count -
                        sumCounts (List.take 3 idx0.map)) none) := by
                    intro i g hg
                    rw [List.getElem?_replicate] at hg
                    split at hg <;> simp at hg
                  have hm0 : MfdInv disk none := by
                    intro m2 hm2
                    simp at hm2
                  obtain ⟨hfinv, hminv⟩ := scanLoop_inv disk _ _ _ _ _ _ _ hscan hf0 hm0
                  obtain ⟨off, hoinit, honame⟩ := hminv m rfl
                  refine ⟨rfl, ⟨off, m, hoinit, honame, rfl⟩, hfinv, ?_⟩
                  intro i g hg hcontra
                  obtain ⟨⟨off2, hinit2⟩, _⟩ := hfinv i g hg
                  have hsz := fileInit_size disk off2 g hinit2
                  have h666 : g.size = 666 := by rw [hcontra]
                  rcases hsz with h5 | h5 <;> omega

/-- C4 counterexample: on the synthetic volume image `c4disk` the
bootstrap finds the MFD at file number 1 and forces its size to 666,
while the file table slot 0 holds a separately decoded copy of size 512
— so `files[MFD.fid.file_number - 1]` does not equal the MFD object. -/
theorem c4_counterexample :
    (ODS2.read_home_block c4disk "/mnt").map
      (fun v => (v.mfd.fid.file_number, v.mfd.size,
        (v.files.getD (v.mfd.fid.file_number - 1) none).elim 0 File.size)) =
      .ok (1, 666, 512) ∧
    (666 : ℕ) ≠ 512 :=
  ⟨by decide, by decide⟩

/-- The volume produced by bootstrapping the synthetic image `c4disk`. -/
def c4vol : Volume :=
  match ODS2.read_home_block c4disk "/mnt" with
  | .ok v => v
  | .error _ => baseVolume

/-- C4 witness: the amended theorem applied to the synthetic image
`c4disk`, whose bootstrap succeeds. -/
theorem c4_bootstrap_witness : c4vol.mfd.size = 666 :=
  (c4_bootstrap_amended c4disk "/mnt" c4vol rfl).1
